import Mathlib

/-!
Shallow embedding of the `apply_to_state` utility
(`src/realm/sync/apply_to_state_command.cpp`) together with the pieces of
`src/realm/util/cli_args.cpp` it uses.

Modelling conventions:

* The input file is a `List Char` (`load_file` yields a `std::string`, so the
  byte right after the buffer is the NUL terminator; every read past the end
  of the buffer is modelled as yielding `'\x00'`.  Reads past the terminator
  are undefined behaviour in C++; the model extends the NUL convention there
  and the spots that rely on it are marked in comments).
* `realm::util::StringView` is a `(data, size)` pair; `data` is modelled as a
  position `pos` into the input buffer and `size` as a `Nat` that is always
  reduced modulo `2^64` (the C++ `std::size_t` arithmetic, including the
  wrap-around produced by `static_cast<std::size_t>` of a negative pointer
  difference, is modelled by `wrap`).
* `std::strtoimax` reads the underlying C string starting at the view's data
  pointer; it does not know the view's size.  It skips leading whitespace,
  accepts an optional sign, consumes the longest run of decimal digits,
  saturates at `INTMAX_MAX` / `INTMAX_MIN` with `ERANGE`, and reports the end
  pointer (the start pointer when no digit was consumed).
* `int_cast_with_overflow_detect` (realm/util/safe_int_ops.hpp is not in the
  sample) is modelled from the spec: narrowing to the field's declared
  integer width fails exactly when the value is outside that width's range.
  Each field's width is an `Int × Int` interval.
* C++ code that throws (a `substr` past the end of a view,
  `realm::sync::parse_changeset` on a bad payload) is modelled by the
  distinct outcome `PR.crash`: the exception is not caught anywhere in
  `main`, so it is not a parse failure.
* Variables that the variadic header parser leaves unassigned (the source
  returns success as soon as the end delimiter is seen, leaving the
  remaining fields uninitialized) take indeterminate values; the model
  threads an arbitrary environment `junk : Nat → Int` for them.
-/

/-- The saturation bound of `std::strtoimax` (`INTMAX_MAX`). -/
def IMAX : Int := 2 ^ 63 - 1

/-- The saturation lower bound `INTMAX_MIN`. -/
def IMIN : Int := -(2 ^ 63)

/-- Models `static_cast<std::size_t>` of a (possibly negative) pointer
difference: reduction modulo `2^64`. -/
def wrap (i : Int) : Nat := (i.emod (2 ^ 64)).toNat

/-- A `realm::util::StringView`: a data pointer (as an offset into the input
buffer) and a 64-bit size. -/
structure SV where
  pos : Nat
  size : Nat
deriving DecidableEq, Repr

/-- The byte of the underlying buffer at offset `i`; past the end the
`std::string` terminator (and, past that, undefined memory) is modelled as
`'\x00'`. -/
def charAt (buf : List Char) (i : Nat) : Char := buf.getD i '\x00'

/-- ASCII decimal digit (what `strtoimax` consumes in base 10). -/
def isDigitC (c : Char) : Bool := 48 ≤ c.toNat && c.toNat ≤ 57

/-- C-locale `isspace` (what `strtoimax` skips). -/
def isSpaceC (c : Char) : Bool :=
  c = ' ' || c = '\n' || c = '\t' || c = '\r' || c = '\x0b' || c = '\x0c'

/-- Value of a run of decimal digit characters. -/
def decDigits (l : List Char) : Nat := l.foldl (fun a c => 10 * a + (c.toNat - 48)) 0

/-- Model of `std::strtoimax(buf + i, &end, 10)`: returns the value, the end offset,
and whether `errno` was set to `ERANGE`.  When no digit is consumed the end
offset is `i` itself and the value is `0`. -/
def strtoimaxAt (buf : List Char) (i : Nat) : Int × Nat × Bool :=
  let afterWs := i + ((buf.drop i).takeWhile isSpaceC).length
  let signed : Int × Nat :=
    if (buf.drop afterWs).head? = some '-' then (-1, afterWs + 1)
    else if (buf.drop afterWs).head? = some '+' then (1, afterWs + 1)
    else (1, afterWs)
  let ds := (buf.drop signed.2).takeWhile isDigitC
  if ds.isEmpty then (0, i, false)
  else
    let v : Int := signed.1 * (decDigits ds : Int)
    if v < IMIN then (IMIN, signed.2 + ds.length, true)
    else if IMAX < v then (IMAX, signed.2 + ds.length, true)
    else (v, signed.2 + ds.length, false)

/-- Outcome of a piece of parsing code: a value, the `std::nullopt` / `false`
parse-failed path, an uncaught C++ exception (`crash`), or model fuel ran out
(`spin` -- the C++ loop would keep running on memory the model does not
represent). -/
inductive PR (α : Type) where
  | ok (a : α)
  | fail
  | crash
  | spin
deriving DecidableEq, Repr

/-- Model of `parse_header_value` (integer overload, lines 67-85): `strtoimax`, the
narrowing overflow check, the `ERANGE` check, and the janky remaining-view
computation `StringView{end_ptr, &sv.back() - end_ptr}` -- which is one byte
short of the true remainder and wraps around `2^64` when the field's digits
reach the view's last byte. -/
def parse_header_value_int (buf : List Char) (lo hi : Int) (sv : SV) : PR (Int × SV) :=
  let r := strtoimaxAt buf sv.pos
  if r.1 < lo ∨ hi < r.1 then .fail
  else if r.2.2 then .fail
  else .ok (r.1, ⟨r.2.1, wrap ((sv.pos : Int) + (sv.size : Int) - 1 - (r.2.1 : Int))⟩)

/-- Model of `parse_header_element` specialised to a run of integer fields (the only
shape the message and changeset headers use), lines 103-122.  Each field has
its declared integer width `(lo, hi)`.  Faithful details: the base case
returns the current view with no empty-check; a field followed by `' '`
recurses (so when `end_delim = ' '` the end-delimiter branch is unreachable);
a field followed by `end_delim` returns success immediately even if more
fields remain (they stay uninitialized); `substr(1)` on an empty view throws
`std::out_of_range` (`crash`). -/
def parse_header_element_ints (buf : List Char) (endDelim : Char) :
    SV → List (Int × Int) → PR (List Int × SV)
  | sv, [] => .ok ([], sv)
  | sv, b :: rest =>
    if sv.size = 0 then .fail
    else
      match parse_header_value_int buf b.1 b.2 sv with
      | .fail => .fail
      | .crash => .crash
      | .spin => .spin
      | .ok (v, sv') =>
        if charAt buf sv'.pos = ' ' then
          if sv'.size = 0 then .crash
          else
            match parse_header_element_ints buf endDelim ⟨sv'.pos + 1, sv'.size - 1⟩ rest with
            | .ok (vs, svf) => .ok (v :: vs, svf)
            | .fail => .fail
            | .crash => .crash
            | .spin => .spin
        else if charAt buf sv'.pos = endDelim then
          if sv'.size = 0 then .crash
          else .ok ([v], ⟨sv'.pos + 1, sv'.size - 1⟩)
        else .fail

/-- Model of `parse_header_value` (StringView overload, lines 87-101) followed by the
delimiter step of `parse_header_element`, as used for the leading
message-type token in `parse_message`: find the first `' '` in the view (the
model only scans the in-buffer part; past the buffer the scan reads
unrepresented memory and the C++ outcome is undefined -- every byte there is
modelled as `'\x00'`), take the prefix, then consume the space. -/
def parse_message_type (buf : List Char) (sv : SV) : PR (List Char × SV) :=
  if sv.size = 0 then .fail
  else
    let l := ((buf.drop sv.pos).take sv.size)
    match l.findIdx? (fun c => c = ' ') with
    | none => .fail
    | some k => .ok (l.take k, ⟨sv.pos + k + 1, sv.size - k - 1⟩)

/-- Declared integer width of the 64-bit unsigned realm sync types.
Modelled from the spec: `SaltedFileIdent`, `SaltedVersion`, `SyncProgress`
versions, `downloadable_bytes`, timestamps and `std::size_t` sizes are
unsigned 64-bit (`realm/sync/protocol.hpp` is not in the sample). -/
def u64F : Int × Int := (0, 2 ^ 64 - 1)

/-- Declared width of the C++ `int` locals (`is_body_compressed`). -/
def i32F : Int × Int := (-(2 ^ 31), 2 ^ 31 - 1)

/-- Source struct `ServerIdentMessage` (lines 28-33). -/
structure ServerIdentMessage where
  session_ident : Int
  file_ident : Int
  file_salt : Int
deriving DecidableEq, Repr

/-- Source struct `realm::sync::Transformer::RemoteChangeset` as populated by
`DownloadMessage::parse` (lines 242-264). -/
structure RemoteChangeset where
  remote_version : Int
  last_integrated_local_version : Int
  origin_timestamp : Int
  origin_file_ident : Int
  original_changeset_size : Int
  data : List Char
deriving DecidableEq, Repr

/-- Source struct `DownloadMessage` (lines 35-45); header fields flattened. -/
structure DownloadMessage where
  session_ident : Int
  download_server_version : Int
  download_last_integrated_client_version : Int
  latest_server_version : Int
  latest_server_version_salt : Int
  upload_client_version : Int
  upload_last_integrated_server_version : Int
  downloadable_bytes : Int
  changesets : List RemoteChangeset
deriving DecidableEq, Repr

/-- A `realm::sync::Changeset` as populated by `UploadMessage::parse`:
the sub-header fields (the decoded instruction list is external). -/
structure UploadChangeset where
  version : Int
  last_integrated_remote_version : Int
  origin_timestamp : Int
  origin_file_ident : Int
deriving DecidableEq, Repr

/-- Source struct `UploadMessage` (lines 47-56). -/
structure UploadMessage where
  session_ident : Int
  upload_client_version : Int
  upload_last_integrated_server_version : Int
  locked_server_version : Int
  changesets : List UploadChangeset
deriving DecidableEq, Repr

/-- Source alias `using Message = std::variant<ServerIdentMessage, DownloadMessage,
UploadMessage>` (line 58). -/
inductive Message where
  | ident (m : ServerIdentMessage)
  | download (m : DownloadMessage)
  | upload (m : UploadMessage)
deriving DecidableEq, Repr

/-- Where a message body's bytes live: a view into the input buffer
(uncompressed case, no allocation) or an owned decompression buffer. -/
inductive BodyView where
  | inBuf (sv : SV)
  | owned (bytes : List Char)
deriving DecidableEq, Repr

/-- Source struct `MessageBody` (lines 130-137): the body view and the view of the bytes
after the body. -/
structure MessageBody where
  body : BodyView
  remaining : SV
deriving DecidableEq, Repr

/-- The decompression buffer: `Buffer<char>` of exactly `usize` bytes into
which the decompressor writes (modelled from the spec: the decompressor
either fills the buffer or fails; whatever it produced is truncated/padded
to the allocated size). -/
def fixLen (usize : Nat) (l : List Char) : List Char :=
  l.take usize ++ List.replicate (usize - l.length) '\x00'

/-- Model of `MessageBody::parse` (lines 139-172), parameterised by the external
decompressor (`realm/sync/noinst/compression.hpp` is not in the sample;
modelled from the spec as a function from the compressed bytes and the
declared uncompressed size to the decompressed bytes, or failure). -/
def MessageBody.parse (decomp : List Char → Nat → Option (List Char))
    (buf : List Char) (sv : SV) (csize usize : Nat) (isComp : Bool) :
    Option MessageBody :=
  if isComp then
    if sv.size < csize then none
    else
      match decomp ((buf.drop sv.pos).take csize) usize with
      | none => none
      | some out => some ⟨.owned (fixLen usize out), ⟨sv.pos + csize, sv.size - csize⟩⟩
  else
    if sv.size < usize then none
    else some ⟨.inBuf ⟨sv.pos, usize⟩, ⟨sv.pos + usize, sv.size - usize⟩⟩

/-- Widths of the six download changeset sub-header fields
(`remote_version`, `last_integrated_local_version`, `origin_timestamp`,
`origin_file_ident`, `original_changeset_size`, `changeset_size`). -/
def dlSubW : List (Int × Int) := [u64F, u64F, u64F, u64F, u64F, u64F]

/-- Widths of the five upload changeset sub-header fields (`version`,
`last_integrated_remote_version`, `origin_timestamp`, `origin_file_ident`,
`changeset_size`). -/
def ulSubW : List (Int × Int) := [u64F, u64F, u64F, u64F, u64F]

/-- The `std::size_t` view of a parsed (or indeterminate) value. -/
def natSize (v : Int) : Nat := wrap v

/-- The changeset loop of `DownloadMessage::parse` (lines 242-264) on the
body view: parse the space-terminated sub-header, fail when the declared
`changeset_size` exceeds the view's size, feed the payload to the external
changeset decoder (`realm::sync::parse_changeset`; a decode exception is not
caught -- `crash`), record the changeset, advance past the payload.  `bbuf`
is the buffer the body view points into. -/
def download_body_loop (dec : List Char → Option Unit) (junk : Nat → Int)
    (bbuf : List Char) : Nat → SV → PR (List RemoteChangeset)
  | 0, _ => .spin
  | fuel + 1, bv =>
    if bv.size = 0 then .ok []
    else
      match parse_header_element_ints bbuf ' ' bv dlSubW with
      | .fail => .fail
      | .crash => .crash
      | .spin => .spin
      | .ok (vs, bv1) =>
        let g := fun i => vs.getD i (junk i)
        let cs := natSize (g 5)
        if cs > bv1.size then .fail
        else
          let payload := (bbuf.drop bv1.pos).take cs
          match dec payload with
          | none => .crash
          | some _ =>
            match download_body_loop dec junk bbuf fuel ⟨bv1.pos + cs, bv1.size - cs⟩ with
            | .ok rest => .ok (⟨g 0, g 1, g 2, g 3, g 4, payload⟩ :: rest)
            | .fail => .fail
            | .crash => .crash
            | .spin => .spin

/-- The changeset loop of `UploadMessage::parse` (lines 293-317): same shape
with the five-field sub-header; the decode exception is caught, logged and
rethrown (still `crash`). -/
def upload_body_loop (dec : List Char → Option Unit) (junk : Nat → Int)
    (bbuf : List Char) : Nat → SV → PR (List UploadChangeset)
  | 0, _ => .spin
  | fuel + 1, bv =>
    if bv.size = 0 then .ok []
    else
      match parse_header_element_ints bbuf ' ' bv ulSubW with
      | .fail => .fail
      | .crash => .crash
      | .spin => .spin
      | .ok (vs, bv1) =>
        let g := fun i => vs.getD i (junk i)
        let cs := natSize (g 4)
        if cs > bv1.size then .fail
        else
          let payload := (bbuf.drop bv1.pos).take cs
          match dec payload with
          | none => .crash
          | some _ =>
            match upload_body_loop dec junk bbuf fuel ⟨bv1.pos + cs, bv1.size - cs⟩ with
            | .ok rest => .ok (⟨g 0, g 1, g 2, g 3⟩ :: rest)
            | .fail => .fail
            | .crash => .crash
            | .spin => .spin

/-- The buffer/view pair a body view denotes, for running the changeset loop
on it (an `inBuf` view lives in the input buffer, an `owned` buffer is its
own allocation). -/
def BodyView.asBuf (buf : List Char) : BodyView → List Char × SV
  | .inBuf sv => (buf, sv)
  | .owned bytes => (bytes, ⟨0, bytes.length⟩)

/-- Widths of the three `ident` header fields (`session_ident`,
`file_ident.ident`, `file_ident.salt`). -/
def identW : List (Int × Int) := [u64F, u64F, u64F]

/-- Widths of the eleven download header fields, in source order
(lines 216-221): `session_ident`, `progress.download.server_version`,
`progress.download.last_integrated_client_version`,
`latest_server_version.version`, `latest_server_version.salt`,
`progress.upload.client_version`,
`progress.upload.last_integrated_server_version`, `downloadable_bytes`,
`is_body_compressed` (an `int`), `uncompressed_body_size`,
`compressed_body_size`. -/
def dlHeadW : List (Int × Int) :=
  [u64F, u64F, u64F, u64F, u64F, u64F, u64F, u64F, i32F, u64F, u64F]

/-- Widths of the seven upload header fields, in source order
(lines 276-279): `session_ident`, `is_body_compressed` (an `int`),
`uncompressed_body_size`, `compressed_body_size`,
`upload_progress.client_version`,
`upload_progress.last_integrated_server_version`, `locked_server_version`. -/
def ulHeadW : List (Int × Int) :=
  [u64F, i32F, u64F, u64F, u64F, u64F, u64F]

/-- Model of `ServerIdentMessage::parse` (lines 195-207). -/
def ServerIdentMessage.parse (junk : Nat → Int) (buf : List Char) (sv : SV) :
    PR (Message × SV) :=
  match parse_header_element_ints buf '\n' sv identW with
  | .fail => .fail
  | .crash => .crash
  | .spin => .spin
  | .ok (vs, sv1) =>
    let g := fun i => vs.getD i (junk i)
    .ok (.ident ⟨g 0, g 1, g 2⟩, sv1)

/-- Model of `DownloadMessage::parse` (lines 209-267): header line, body framing, then
the changeset loop over the framed body view. -/
def DownloadMessage.parse (decomp : List Char → Nat → Option (List Char))
    (dec : List Char → Option Unit) (junk : Nat → Int) (fuel : Nat)
    (buf : List Char) (sv : SV) : PR (Message × SV) :=
  match parse_header_element_ints buf '\n' sv dlHeadW with
  | .fail => .fail
  | .crash => .crash
  | .spin => .spin
  | .ok (vs, sv1) =>
    let g := fun i => vs.getD i (junk i)
    match MessageBody.parse decomp buf sv1 (natSize (g 10)) (natSize (g 9)) (g 8 ≠ 0) with
    | none => .fail
    | some mb =>
      let bb := mb.body.asBuf buf
      match download_body_loop dec junk bb.1 fuel bb.2 with
      | .fail => .fail
      | .crash => .crash
      | .spin => .spin
      | .ok cs =>
        .ok (.download ⟨g 0, g 1, g 2, g 3, g 4, g 5, g 6, g 7, cs⟩, mb.remaining)

/-- Model of `UploadMessage::parse` (lines 269-320). -/
def UploadMessage.parse (decomp : List Char → Nat → Option (List Char))
    (dec : List Char → Option Unit) (junk : Nat → Int) (fuel : Nat)
    (buf : List Char) (sv : SV) : PR (Message × SV) :=
  match parse_header_element_ints buf '\n' sv ulHeadW with
  | .fail => .fail
  | .crash => .crash
  | .spin => .spin
  | .ok (vs, sv1) =>
    let g := fun i => vs.getD i (junk i)
    match MessageBody.parse decomp buf sv1 (natSize (g 3)) (natSize (g 2)) (g 1 ≠ 0) with
    | none => .fail
    | some mb =>
      let bb := mb.body.asBuf buf
      match upload_body_loop dec junk bb.1 fuel bb.2 with
      | .fail => .fail
      | .crash => .crash
      | .spin => .spin
      | .ok cs =>
        .ok (.upload ⟨g 0, g 4, g 5, g 6, cs⟩, mb.remaining)

/-- Model of `parse_message` (lines 174-193): read the space-terminated message-type
token, dispatch on `"download"` / `"upload"` / `"ident"`, otherwise fail. -/
def parse_message (decomp : List Char → Nat → Option (List Char))
    (dec : List Char → Option Unit) (junk : Nat → Int) (fuel : Nat)
    (buf : List Char) (sv : SV) : PR (Message × SV) :=
  match parse_message_type buf sv with
  | .fail => .fail
  | .crash => .crash
  | .spin => .spin
  | .ok (ty, sv1) =>
    if ty = "download".toList then DownloadMessage.parse decomp dec junk fuel buf sv1
    else if ty = "upload".toList then UploadMessage.parse decomp dec junk fuel buf sv1
    else if ty = "ident".toList then ServerIdentMessage.parse junk buf sv1
    else .fail

/-- A database-mutating call the driver makes (lines 394-417). -/
inductive DbAction where
  | set_client_file_ident (ident salt : Int)
  | integrate_server_changesets (server_version last_integrated_client_version
      upload_client_version upload_last_integrated_server_version
      downloadable_bytes : Int) (changesets : List RemoteChangeset)
  | apply_upload_changeset (c : UploadChangeset)
deriving DecidableEq, Repr

/-- The driver's actions for one parsed message (the three
`holds_alternative` branches of `main`, lines 394-417). -/
def message_actions : Message → List DbAction
  | .ident m => [.set_client_file_ident m.file_ident m.file_salt]
  | .download m =>
    [.integrate_server_changesets m.download_server_version
      m.download_last_integrated_client_version m.upload_client_version
      m.upload_last_integrated_server_version m.downloadable_bytes m.changesets]
  | .upload m => m.changesets.map .apply_upload_changeset

/-- How the driver's message loop ends. -/
inductive DriverEnd where
  | exitSuccess
  | parseFailure (log : List Char)
  | crashed
  | spin
deriving DecidableEq, Repr

/-- The driver loop of `main` (lines 387-418): while the input view is
non-empty, parse one message, dispatch it, continue on the view the parser
returned; on parse failure log
`"could not find message in input file"` and exit with failure. -/
def driver_loop (decomp : List Char → Nat → Option (List Char))
    (dec : List Char → Option Unit) (junk : Nat → Int) (bodyFuel : Nat)
    (buf : List Char) : Nat → SV → List DbAction × DriverEnd
  | 0, _ => ([], .spin)
  | fuel + 1, v =>
    if v.size = 0 then ([], .exitSuccess)
    else
      match parse_message decomp dec junk bodyFuel buf v with
      | .fail => ([], .parseFailure ("could not find message in input file".toList))
      | .crash => ([], .crashed)
      | .spin => ([], .spin)
      | .ok (m, rest) =>
        let r := driver_loop decomp dec junk bodyFuel buf fuel rest
        (message_actions m ++ r.1, r.2)

/-- Run the driver on the whole input file (the view `StringView
{input_contents}` of line 386). -/
def driver_run (decomp : List Char → Nat → Option (List Char))
    (dec : List Char → Option Unit) (junk : Nat → Int) (bodyFuel fuel : Nat)
    (buf : List Char) : List DbAction × DriverEnd :=
  driver_loop decomp dec junk bodyFuel buf fuel ⟨0, buf.length⟩

/-- A decompressor instance: always reject (the claims about the framing
layer are proved for every decompressor; concrete runs that never take the
compressed path may use this one). -/
def decompNone : List Char → Nat → Option (List Char) := fun _ _ => none

/-- A changeset-decoder instance that accepts every payload. -/
def decAll : List Char → Option Unit := fun _ => some ()

/-- A fixed environment for indeterminate (uninitialized) values. -/
def junk0 : Nat → Int := fun _ => 0

/-- Canonical encoding of a header-field sequence: the fields separated by
single spaces, the last followed by the end delimiter. -/
def encFields : List (List Char) → Char → List Char
  | [], d => [d]
  | [f], d => f ++ [d]
  | f :: fs, d => f ++ ' ' :: encFields fs d

/-- Bytes a canonical field sequence occupies (each field plus one
delimiter). -/
def encLen (ds : List (List Char)) : Nat := (ds.map (fun f => f.length + 1)).sum

/-- View-size budget the scanner consumes on a canonical field sequence: the
remaining-view computation of `parse_header_value` loses one extra byte per
numeric field, so each field costs its length plus two. -/
def needLen (ds : List (List Char)) : Nat := (ds.map (fun f => f.length + 2)).sum

/-- Modelled from the spec (section 6 wire format): the canonical on-wire
encoding of an `ident` message, `"ident" SP session SP ident SP salt LF`. -/
def encode_ident (m : ServerIdentMessage) : List Char :=
  "ident ".toList ++ Nat.toDigits 10 m.session_ident.toNat
    ++ ' ' :: Nat.toDigits 10 m.file_ident.toNat
    ++ ' ' :: Nat.toDigits 10 m.file_salt.toNat ++ ['\n']

/-- Modelled from claim C5's wording: a scanner that parses the longest
leading base-10 digit run of the view, requires the character right after
the run to be one of the expected delimiters, and fails when the value
overflows the declared width. -/
def claim_scan_int (buf : List Char) (lo hi : Int) (delims : List Char) (sv : SV) :
    Option Int :=
  let l := (buf.drop sv.pos).take sv.size
  let ds := l.takeWhile isDigitC
  match (l.drop ds.length).head? with
  | none => none
  | some t =>
    if t ∈ delims then
      if (decDigits ds : Int) < lo ∨ hi < (decDigits ds : Int) then none
      else some (decDigits ds)
    else none

/-- Modelled from claim C2's wording: the input begins with `"download "`
followed by a header line of exactly 11 integer fields terminated by a
newline (fields here: nonempty runs of decimal digits). -/
def download_header_shape (buf : List Char) : Bool :=
  buf.take 9 = "download ".toList &&
    match (buf.drop 9).findIdx? (fun c => c = '\n') with
    | none => false
    | some i =>
      let fields := ((buf.drop 9).take i).splitOn ' '
      fields.length = 11 && fields.all (fun f => !f.isEmpty && f.all isDigitC)

/-- A CLI flag as registered by `main` (lines 343-348): long name, short
name (`'\x00'` when absent), and whether it takes a value (`CliArgument`
vs `CliFlag`). -/
structure CliFlagSpec where
  name : List Char
  shortName : Char
  expectsValue : Bool
deriving DecidableEq, Repr

/-- The five flags `main` registers: `help/h`, `realm/r` (value),
`encryption-key/e` (value), `input/i` (value), `verbose`.  No `version`/`v`
flag is registered, although `print_usage` documents one. -/
def apply_to_state_flags : List CliFlagSpec :=
  [⟨"help".toList, 'h', false⟩, ⟨"realm".toList, 'r', true⟩,
   ⟨"encryption-key".toList, 'e', true⟩, ⟨"input".toList, 'i', true⟩,
   ⟨"verbose".toList, '\x00', false⟩]

/-- The `find_if` of `parse_arguments` (cli_args.cpp lines 12-25).  The
lambda captures `cur_arg` by reference and `remove_prefix(1)` mutates it
once per flag inspected whenever it still starts with `'-'`, so the
function returns the mutated `cur_arg` along with the index of the matched
flag.  A flag matches if, after the strip, the text still starts with `'-'`
and the rest equals the long name, or if the stripped text has length 2 and
its second character is the short name. -/
def cli_find_flag : List CliFlagSpec → Nat → List Char → List Char × Option Nat
  | [], _, cur => (cur, none)
  | f :: fs, i, cur =>
    if cur.head? = some '-' then
      let cur1 := cur.drop 1
      if (cur1.head? = some '-' ∧ cur1.drop 1 = f.name) ∨
          (cur1.length = 2 ∧ charAt cur1 1 = f.shortName) then (cur1, some i)
      else cli_find_flag fs (i + 1) cur1
    else cli_find_flag fs (i + 1) cur

/-- Result of `parse_arguments` (cli_args.cpp lines 5-50): which flags were
assigned (index and value), the unmatched arguments (as mutated by the
matching lambda), and whether the `CliParseException` for a missing value
was thrown. -/
structure CliResult where
  assigned : List (Nat × List Char)
  unmatched : List (List Char)
  threw : Bool
deriving DecidableEq, Repr

/-- The argument loop of `parse_arguments` (cli_args.cpp lines 9-47);
`main` reaches it through the `CliArgumentParser` facade (not in the
sample -- modelled from the spec as yielding name-to-value bindings via
this visible implementation). -/
def parse_arguments_go (flags : List CliFlagSpec) : List (List Char) → CliResult → CliResult
  | [], r => r
  | a :: rest, r =>
    let m := cli_find_flag flags 0 a
    match m.2 with
    | none => parse_arguments_go flags rest
        { r with unmatched := r.unmatched ++ [m.1] }
    | some i =>
      let f := flags.getD i ⟨[], '\x00', false⟩
      if ¬ f.expectsValue then
        parse_arguments_go flags rest { r with assigned := r.assigned ++ [(i, [])] }
      else
        match m.1.findIdx? (fun c => c = '=') with
        | some e => parse_arguments_go flags rest
            { r with assigned := r.assigned ++ [(i, m.1.drop (e + 1))] }
        | none =>
          match rest with
          | [] => { r with threw := true }
          | v :: rest2 => parse_arguments_go flags rest2
              { r with assigned := r.assigned ++ [(i, v)] }

/-- An observable effect of `main` (lines 341-421).
`print_release_identifier` is the effect the documented `-v, --version`
option would produce; it is in the type so that its absence from `main`'s
behaviour is expressible. -/
inductive MainEffect where
  | print_usage
  | err_log (msg : List Char)
  | print_release_identifier
  | run (actions : List DbAction) (outcome : DriverEnd)
deriving DecidableEq, Repr

/-- Model of `main` (lines 341-421): parse the arguments (argv without the program
name), dispatch on `help` / missing `realm` / missing `input`, then run the
driver loop on the input file.  Returns the effects and whether the process
exits with `EXIT_SUCCESS`. -/
def cli_main (decomp : List Char → Nat → Option (List Char))
    (dec : List Char → Option Unit) (junk : Nat → Int) (bodyFuel fuel : Nat)
    (argv : List (List Char)) (inputFile : List Char) : List MainEffect × Bool :=
  let r := parse_arguments_go apply_to_state_flags argv ⟨[], [], false⟩
  if r.threw then ([], false)
  else
    let found := fun i => (r.assigned.find? (fun p => p.1 = i)).isSome
    if found 0 then ([.print_usage], true)
    else if ¬ found 1 then
      ([.err_log ("missing path to realm to apply changesets to".toList), .print_usage], false)
    else if ¬ found 3 then
      ([.err_log ("missing path to messages to apply to realm".toList), .print_usage], false)
    else
      let d := driver_run decomp dec junk bodyFuel fuel inputFile
      ([.run d.1 d.2], match d.2 with | .exitSuccess => true | _ => false)

/-! ## Supporting lemmas -/

theorem wrap_coe (n : Nat) (h : n < 2 ^ 64) : wrap (n : Int) = n := by
  unfold wrap
  have h0 : (0 : Int) ≤ (n : Int) := Int.natCast_nonneg n
  have h1 : (n : Int) < 2 ^ 64 := by exact_mod_cast h
  have h2 : (n : Int).emod (2 ^ 64) = (n : Int) % 2 ^ 64 := rfl
  rw [h2, Int.emod_eq_of_lt h0 h1, Int.toNat_natCast]

theorem getD_eq_drop_headD (l : List Char) (n : Nat) (d : Char) :
    l.getD n d = (l.drop n).headD d := by
  induction l generalizing n with
  | nil => simp [List.getD]
  | cons a t ih =>
    cases n with
    | zero => simp [List.getD]
    | succ m =>
      simp only [List.getD_cons_succ, List.drop_succ_cons]
      exact ih m

theorem charAt_of_drop {buf : List Char} {n : Nat} {x : Char} {l : List Char}
    (h : buf.drop n = x :: l) : charAt buf n = x := by
  rw [charAt, getD_eq_drop_headD, h]
  rfl

theorem takeWhile_all_append (p : Char → Bool) (xs : List Char) (c : Char)
    (r : List Char) (hx : ∀ x ∈ xs, p x = true) (hc : p c = false) :
    (xs ++ c :: r).takeWhile p = xs := by
  induction xs with
  | nil => simp [List.takeWhile, hc]
  | cons a t ih =>
    have ha : p a = true := hx a (by simp)
    have ht : ∀ x ∈ t, p x = true := fun x hx2 => hx x (by simp [hx2])
    simp [List.takeWhile, ha, ih ht]

theorem space_not_digit {x : Char} (h : isSpaceC x = true) : isDigitC x = false := by
  simp only [isSpaceC, Bool.or_eq_true, decide_eq_true_eq] at h
  rcases h with ((((h | h) | h) | h) | h) | h <;> subst h <;> decide

theorem digit_not_space {x : Char} (h : isDigitC x = true) : isSpaceC x = false := by
  cases hs : isSpaceC x
  · rfl
  · rw [space_not_digit hs] at h
    cases h

theorem digit_ne_minus {x : Char} (h : isDigitC x = true) : x ≠ '-' := by
  intro he
  subst he
  cases h

theorem digit_ne_plus {x : Char} (h : isDigitC x = true) : x ≠ '+' := by
  intro he
  subst he
  cases h

theorem decDigits_nonneg (ds : List Char) : (0 : Int) ≤ (decDigits ds : Int) :=
  Int.natCast_nonneg _

/-- Behaviour of `strtoimax` on a canonical field: the text at `i` is a nonempty digit
run followed by a non-digit, and the value does not overflow `intmax_t`. -/
theorem strtoimaxAt_digits {buf ds tail : List Char} {c : Char} {i : Nat}
    (hdrop : buf.drop i = ds ++ c :: tail) (hne : ds ≠ [])
    (hdig : ∀ x ∈ ds, isDigitC x = true) (hc : isDigitC c = false)
    (hmax : (decDigits ds : Int) ≤ IMAX) :
    strtoimaxAt buf i = ((decDigits ds : Int), i + ds.length, false) := by
  obtain ⟨a, ds', rfl⟩ : ∃ a ds', ds = a :: ds' := by
    cases ds with
    | nil => exact absurd rfl hne
    | cons a t => exact ⟨a, t, rfl⟩
  have ha : isDigitC a = true := hdig a (by simp)
  have hsp : ((a :: ds') ++ c :: tail).takeWhile isSpaceC = [] := by
    simp [List.takeWhile, digit_not_space ha]
  have hdg : ((a :: ds') ++ c :: tail).takeWhile isDigitC = a :: ds' :=
    takeWhile_all_append _ _ _ _ hdig hc
  have hnm : ¬ (((a :: ds') ++ c :: tail).head? = some '-') := by
    simp only [List.cons_append, List.head?_cons, Option.some.injEq]
    exact digit_ne_minus ha
  have hnp : ¬ (((a :: ds') ++ c :: tail).head? = some '+') := by
    simp only [List.cons_append, List.head?_cons, Option.some.injEq]
    exact digit_ne_plus ha
  have h0 : ¬ ((decDigits (a :: ds') : Int) < IMIN) := by
    have := decDigits_nonneg (a :: ds')
    unfold IMIN
    omega
  simp only [strtoimaxAt, hdrop, hsp, List.length_nil, Nat.add_zero, hnm, if_false,
    hnp, hdg, List.isEmpty_cons, one_mul, h0, hmax]
  simp [not_lt.mpr hmax, h0]

/-- One-step unfolding of `parse_header_element_ints` on a nonempty field
list. -/
theorem element_ints_cons (buf : List Char) (endDelim : Char) (sv : SV)
    (b : Int × Int) (rest : List (Int × Int)) :
    parse_header_element_ints buf endDelim sv (b :: rest) =
      if sv.size = 0 then .fail
      else
        match parse_header_value_int buf b.1 b.2 sv with
        | .fail => .fail
        | .crash => .crash
        | .spin => .spin
        | .ok (v, sv') =>
          if charAt buf sv'.pos = ' ' then
            if sv'.size = 0 then .crash
            else
              match parse_header_element_ints buf endDelim ⟨sv'.pos + 1, sv'.size - 1⟩ rest with
              | .ok (vs, svf) => .ok (v :: vs, svf)
              | .fail => .fail
              | .crash => .crash
              | .spin => .spin
          else if charAt buf sv'.pos = endDelim then
            if sv'.size = 0 then .crash
            else .ok ([v], ⟨sv'.pos + 1, sv'.size - 1⟩)
          else .fail := by
  rfl

/-- Behaviour of `parse_header_value` on a canonical field (digits, then a delimiter,
with at least two more bytes of view budget): value and the off-by-one
remaining view. -/
theorem value_int_canonical {buf ds tail : List Char} {c : Char} {lo hi : Int}
    {p t : Nat}
    (hdrop : buf.drop p = ds ++ c :: tail) (hne : ds ≠ [])
    (hdig : ∀ x ∈ ds, isDigitC x = true) (hc : isDigitC c = false)
    (hlo : lo ≤ (decDigits ds : Int)) (hhi : (decDigits ds : Int) ≤ hi)
    (hmax : (decDigits ds : Int) ≤ IMAX)
    (ht : ds.length + 2 ≤ t) (ht64 : t < 2 ^ 64) :
    parse_header_value_int buf lo hi ⟨p, t⟩ =
      .ok ((decDigits ds : Int), ⟨p + ds.length, t - ds.length - 1⟩) := by
  have hb : ¬ ((decDigits ds : Int) < lo ∨ hi < (decDigits ds : Int)) := by
    push_neg
    exact ⟨hlo, hhi⟩
  have harith : ((p : Int) + (t : Int) - 1 - ((p + ds.length : Nat) : Int)) =
      ((t - ds.length - 1 : Nat) : Int) := by
    push_cast
    omega
  simp only [parse_header_value_int, strtoimaxAt_digits hdrop hne hdig hc hmax,
    hb, if_false, Bool.false_eq_true, harith, wrap_coe _ (by omega : t - ds.length - 1 < 2 ^ 64)]

theorem needLen_cons (f : List Char) (fs : List (List Char)) :
    needLen (f :: fs) = f.length + 2 + needLen fs := by
  simp [needLen]

theorem encLen_cons (f : List Char) (fs : List (List Char)) :
    encLen (f :: fs) = f.length + 1 + encLen fs := by
  simp [encLen]

/-- The variadic header scanner on a canonical field sequence: with the
fields (each a nonempty digit run whose value fits its width and
`intmax_t`) separated by single spaces, the last followed by the end
delimiter, and a view budget of at least `needLen` (each field costs its
length plus two bytes of view size -- one consumed delimiter, one byte lost
to the remaining-view computation), the scanner returns every value in
order, the position right after the encoded fields, and the budget less
`needLen`. -/
theorem fields_canonical (buf rest : List Char) (d : Char) (hd : isDigitC d = false) :
    ∀ (fs : List (List Char × (Int × Int))) (x : List Char × (Int × Int)) (p t : Nat),
    buf.drop p = encFields ((x :: fs).map Prod.fst) d ++ rest →
    (∀ y ∈ x :: fs, y.1 ≠ [] ∧ (∀ ch ∈ y.1, isDigitC ch = true) ∧
      y.2.1 ≤ (decDigits y.1 : Int) ∧ (decDigits y.1 : Int) ≤ y.2.2 ∧
      (decDigits y.1 : Int) ≤ IMAX) →
    needLen ((x :: fs).map Prod.fst) ≤ t → t < 2 ^ 64 →
    parse_header_element_ints buf d ⟨p, t⟩ ((x :: fs).map Prod.snd) =
      .ok ((x :: fs).map (fun y => (decDigits y.1 : Int)),
        ⟨p + encLen ((x :: fs).map Prod.fst), t - needLen ((x :: fs).map Prod.fst)⟩) := by
  intro fs
  induction fs with
  | nil =>
    intro x p t hdrop hyp hneed h64
    obtain ⟨hne, hdig, hlo, hhi, hmax⟩ := hyp x (by simp)
    have hL2 : x.1.length + 2 ≤ t := by
      have : needLen [x.1] = x.1.length + 2 := by simp [needLen]
      simp only [List.map_cons, List.map_nil] at hneed
      omega
    have hdrop' : buf.drop p = x.1 ++ d :: rest := by
      simpa [encFields] using hdrop
    have hv := value_int_canonical hdrop' hne hdig hd hlo hhi hmax hL2 h64
    have hafter : buf.drop (p + x.1.length) = d :: rest := by
      rw [← List.drop_drop, hdrop', List.drop_left]
    have hch : charAt buf (p + x.1.length) = d := charAt_of_drop hafter
    simp only [List.map_cons, List.map_nil, parse_header_element_ints,
      (by omega : ¬ (t = 0)), if_false, hv, hch]
    by_cases hds : d = ' '
    · subst hds
      simp only [if_pos rfl, (by omega : ¬ (t - x.1.length - 1 = 0)), if_false,
        parse_header_element_ints]
      have h1 : p + x.1.length + 1 = p + encLen [x.1] := by simp [encLen]; omega
      have h2 : t - x.1.length - 1 - 1 = t - needLen [x.1] := by simp [needLen]; omega
      rw [if_neg (by omega : ¬ (t = 0)), if_neg (by omega : ¬ (t - x.1.length - 1 = 0))]
      simp [h1, h2]
    · simp only [if_neg hds, if_pos rfl, (by omega : ¬ (t - x.1.length - 1 = 0)), if_false]
      have h1 : p + x.1.length + 1 = p + encLen [x.1] := by simp [encLen]; omega
      have h2 : t - x.1.length - 1 - 1 = t - needLen [x.1] := by simp [needLen]; omega
      rw [if_neg (by omega : ¬ (t = 0)), if_neg (by omega : ¬ (t - x.1.length - 1 = 0))]
      simp [h1, h2]
  | cons y fs' ih =>
    intro x p t hdrop hyp hneed h64
    obtain ⟨hne, hdig, hlo, hhi, hmax⟩ := hyp x (by simp)
    have hneed' : needLen ((x :: y :: fs').map Prod.fst) =
        x.1.length + 2 + needLen ((y :: fs').map Prod.fst) := by
      simp only [List.map_cons]
      rw [needLen_cons]
    have hneedpos : 3 ≤ needLen ((y :: fs').map Prod.fst) := by
      have hy := hyp y (by simp)
      have : y.1.length ≠ 0 := by
        intro h0
        exact hy.1 (List.eq_nil_of_length_eq_zero h0)
      simp only [List.map_cons]
      rw [needLen_cons]
      omega
    have hL2 : x.1.length + 2 ≤ t := by omega
    have hdrop' : buf.drop p =
        x.1 ++ ' ' :: (encFields ((y :: fs').map Prod.fst) d ++ rest) := by
      simp only [List.map_cons] at hdrop ⊢
      rw [hdrop]
      cases fs' <;> simp [encFields]
    have hv := value_int_canonical hdrop' hne hdig (by decide) hlo hhi hmax hL2 h64
    have hafter : buf.drop (p + x.1.length) =
        ' ' :: (encFields ((y :: fs').map Prod.fst) d ++ rest) := by
      rw [← List.drop_drop, hdrop', List.drop_left]
    have hch : charAt buf (p + x.1.length) = ' ' := charAt_of_drop hafter
    have hdropnext : buf.drop (p + x.1.length + 1) =
        encFields ((y :: fs').map Prod.fst) d ++ rest := by
      rw [← List.drop_drop, hafter]
      rfl
    have hih := ih y (p + x.1.length + 1) (t - x.1.length - 2) hdropnext
      (fun z hz => hyp z (by simp at hz ⊢; tauto)) (by omega) (by omega)
    have hsv : (⟨p + x.1.length + 1, t - x.1.length - 1 - 1⟩ : SV) =
        ⟨p + x.1.length + 1, t - x.1.length - 2⟩ := by
      simp only [SV.mk.injEq, true_and]
      omega
    simp only [List.map_cons] at hih ⊢
    rw [element_ints_cons]
    dsimp only
    rw [if_neg (by omega : ¬ (t = 0)), hv]
    dsimp only
    rw [hch, if_pos rfl, if_neg (by omega : ¬ (t - x.1.length - 1 = 0)), hsv, hih]
    have h1 : p + x.1.length + 1 + encLen (y.1 :: fs'.map Prod.fst) =
        p + encLen (x.1 :: y.1 :: fs'.map Prod.fst) := by
      rw [encLen_cons (x.1)]
      omega
    have h2 : t - x.1.length - 2 - needLen (y.1 :: fs'.map Prod.fst) =
        t - needLen (x.1 :: y.1 :: fs'.map Prod.fst) := by
      rw [needLen_cons (x.1)]
      omega
    simp [h1, h2]

theorem takeWhile_append_all (p : Char → Bool) (xs l : List Char)
    (hx : ∀ x ∈ xs, p x = true) :
    (xs ++ l).takeWhile p = xs ++ l.takeWhile p := by
  induction xs with
  | nil => simp
  | cons a t ih =>
    have ha : p a = true := hx a (by simp)
    have ht : ∀ x ∈ t, p x = true := fun x hx2 => hx x (by simp [hx2])
    simp [List.takeWhile, ha, ih ht]

/-- Behaviour of `strtoimax` on whitespace, an optional sign, a digit run, and a
non-digit: general form with saturation. -/
theorem strtoimaxAt_wssd {buf ws sg ds tail : List Char} {c : Char} {i : Nat}
    (hdrop : buf.drop i = ws ++ (sg ++ (ds ++ c :: tail)))
    (hws : ∀ x ∈ ws, isSpaceC x = true)
    (hsg : sg = [] ∨ sg = ['-'] ∨ sg = ['+'])
    (hne : ds ≠ []) (hdig : ∀ x ∈ ds, isDigitC x = true) (hc : isDigitC c = false) :
    strtoimaxAt buf i =
      (if (if sg = ['-'] then (-1 : Int) else 1) * (decDigits ds : Int) < IMIN then
        (IMIN, i + ws.length + sg.length + ds.length, true)
      else if IMAX < (if sg = ['-'] then (-1 : Int) else 1) * (decDigits ds : Int) then
        (IMAX, i + ws.length + sg.length + ds.length, true)
      else ((if sg = ['-'] then (-1 : Int) else 1) * (decDigits ds : Int),
        i + ws.length + sg.length + ds.length, false)) := by
  obtain ⟨a, ds', rfl⟩ : ∃ a ds', ds = a :: ds' := by
    cases ds with
    | nil => exact absurd rfl hne
    | cons a t => exact ⟨a, t, rfl⟩
  have ha : isDigitC a = true := hdig a (by simp)
  have hspa : isSpaceC a = false := digit_not_space ha
  have hheadsp : (sg ++ ((a :: ds') ++ c :: tail)).takeWhile isSpaceC = [] := by
    rcases hsg with rfl | rfl | rfl
    · simp [List.takeWhile, hspa]
    · simp [List.takeWhile, (show isSpaceC '-' = false by decide)]
    · simp [List.takeWhile, (show isSpaceC '+' = false by decide)]
  have hsp : (ws ++ (sg ++ ((a :: ds') ++ c :: tail))).takeWhile isSpaceC = ws := by
    rw [takeWhile_append_all _ _ _ hws, hheadsp, List.append_nil]
  have hafter : buf.drop (i + ws.length) = sg ++ ((a :: ds') ++ c :: tail) := by
    rw [← List.drop_drop, hdrop, List.drop_left]
  have hdg : ((a :: ds') ++ c :: tail).takeWhile isDigitC = a :: ds' :=
    takeWhile_all_append _ _ _ _ hdig hc
  simp only [strtoimaxAt, hdrop, hsp]
  rcases hsg with rfl | rfl | rfl
  · have hha : (buf.drop (i + ws.length)).head? = some a := by
      rw [hafter]
      rfl
    have hdga : (buf.drop (i + ws.length)).takeWhile isDigitC = a :: ds' := by
      rw [hafter]
      simpa using hdg
    simp only [hha, Option.some.injEq, digit_ne_minus ha, digit_ne_plus ha, if_false,
      hdga, List.isEmpty_cons, Bool.false_eq_true, one_mul, List.length_cons,
      List.length_nil, Nat.add_zero, (show ([] : List Char) ≠ ['-'] by decide)]
  · have hha : (buf.drop (i + ws.length)).head? = some '-' := by
      rw [hafter]
      rfl
    have hafter2 : buf.drop (i + ws.length + 1) = (a :: ds') ++ c :: tail := by
      rw [← List.drop_drop, hafter]
      rfl
    have hdga : (buf.drop (i + ws.length + 1)).takeWhile isDigitC = a :: ds' := by
      rw [hafter2]
      exact hdg
    simp only [hha, Option.some.injEq, eq_self_iff_true, if_true, hdga,
      List.isEmpty_cons, Bool.false_eq_true, if_false, List.length_cons,
      List.length_nil, Nat.add_zero]
  · have hha : (buf.drop (i + ws.length)).head? = some '+' := by
      rw [hafter]
      rfl
    have hafter2 : buf.drop (i + ws.length + 1) = (a :: ds') ++ c :: tail := by
      rw [← List.drop_drop, hafter]
      rfl
    have hdga : (buf.drop (i + ws.length + 1)).takeWhile isDigitC = a :: ds' := by
      rw [hafter2]
      exact hdg
    simp only [hha, Option.some.injEq, (show ('+' : Char) ≠ '-' by decide),
      eq_self_iff_true, if_true, if_false, hdga, List.isEmpty_cons,
      Bool.false_eq_true, one_mul, List.length_cons, List.length_nil, Nat.add_zero,
      (show (['+'] : List Char) ≠ ['-'] by decide)]

/-- Claim C5, amended.  The scanner's integer fields follow `strtoimax`: an
optional run of leading whitespace (which can include newlines), an optional
`'-'`/`'+'` sign, then the longest leading base-10 digit run.  On such a
field it (1) succeeds with the signed decimal value when it fits `intmax_t`
and the field's declared width, returning the end-of-digits position and the
off-by-one remaining size; (2) fails when the value fits `intmax_t` but not
the declared width; (3) fails when the value overflows `intmax_t`
(saturation plus `ERANGE`); and (4) at the header-element level the
character right after the digit run must be `' '` or the declared end
delimiter, else the parse fails. -/
theorem c5_scanner_amended {buf ws sg ds tail : List Char} {c : Char}
    {lo hi : Int} {d : Char} {p t : Nat} {v : Int}
    (hdrop : buf.drop p = ws ++ (sg ++ (ds ++ c :: tail)))
    (hws : ∀ x ∈ ws, isSpaceC x = true)
    (hsg : sg = [] ∨ sg = ['-'] ∨ sg = ['+'])
    (hne : ds ≠ []) (hdig : ∀ x ∈ ds, isDigitC x = true) (hc : isDigitC c = false)
    (hv : v = (if sg = ['-'] then (-1 : Int) else 1) * (decDigits ds : Int)) :
    (IMIN ≤ v → v ≤ IMAX → lo ≤ v → v ≤ hi →
      parse_header_value_int buf lo hi ⟨p, t⟩ =
        .ok (v, ⟨p + ws.length + sg.length + ds.length,
          wrap ((p : Int) + (t : Int) - 1 -
            ((p + ws.length + sg.length + ds.length : Nat) : Int))⟩)) ∧
    (IMIN ≤ v → v ≤ IMAX → (v < lo ∨ hi < v) →
      parse_header_value_int buf lo hi ⟨p, t⟩ = .fail) ∧
    ((v < IMIN ∨ IMAX < v) →
      parse_header_value_int buf lo hi ⟨p, t⟩ = .fail) ∧
    (c ≠ ' ' → c ≠ d →
      parse_header_element_ints buf d ⟨p, t⟩ [(lo, hi)] = .fail) := by
  have hst := strtoimaxAt_wssd hdrop hws hsg hne hdig hc
  rw [← hv] at hst
  have hImm : IMIN < IMAX := by decide
  have hok : IMIN ≤ v → v ≤ IMAX → lo ≤ v → v ≤ hi →
      parse_header_value_int buf lo hi ⟨p, t⟩ =
        .ok (v, ⟨p + ws.length + sg.length + ds.length,
          wrap ((p : Int) + (t : Int) - 1 -
            ((p + ws.length + sg.length + ds.length : Nat) : Int))⟩) := by
    intro h1 h2 h3 h4
    rw [if_neg (by omega), if_neg (by omega)] at hst
    simp only [parse_header_value_int, hst]
    rw [if_neg (by omega)]
    simp [Nat.add_assoc]
  have hwidth : IMIN ≤ v → v ≤ IMAX → (v < lo ∨ hi < v) →
      parse_header_value_int buf lo hi ⟨p, t⟩ = .fail := by
    intro h1 h2 h3
    rw [if_neg (by omega), if_neg (by omega)] at hst
    simp only [parse_header_value_int, hst]
    rw [if_pos (by omega)]
  have hsat : (v < IMIN ∨ IMAX < v) →
      parse_header_value_int buf lo hi ⟨p, t⟩ = .fail := by
    intro h1
    rcases h1 with h1 | h1
    · rw [if_pos h1] at hst
      simp only [parse_header_value_int, hst]
      by_cases hb : IMIN < lo ∨ hi < IMIN
      · rw [if_pos hb]
      · rw [if_neg hb]
        simp
    · rw [if_neg (by omega), if_pos h1] at hst
      simp only [parse_header_value_int, hst]
      by_cases hb : IMAX < lo ∨ hi < IMAX
      · rw [if_pos hb]
      · rw [if_neg hb]
        simp
  refine ⟨hok, hwidth, hsat, ?_⟩
  intro hc1 hc2
  rw [element_ints_cons]
  dsimp only
  by_cases ht0 : t = 0
  · rw [if_pos ht0]
  · rw [if_neg ht0]
    have hafterds : buf.drop (p + ws.length + sg.length + ds.length) = c :: tail := by
      have : buf.drop p = (ws ++ sg ++ ds) ++ c :: tail := by
        rw [hdrop]
        simp [List.append_assoc]
      rw [(by omega : p + ws.length + sg.length + ds.length =
        p + (ws.length + sg.length + ds.length))]
      rw [← List.drop_drop, this]
      have hlen : (ws ++ sg ++ ds).length = ws.length + sg.length + ds.length := by
        simp
        omega
      rw [← hlen, List.drop_left]
    have hchc : charAt buf (p + ws.length + sg.length + ds.length) = c :=
      charAt_of_drop hafterds
    by_cases hs1 : v < IMIN ∨ IMAX < v
    · rw [hsat hs1]
    · by_cases hs2 : v < lo ∨ hi < v
      · rw [hwidth (by omega) (by omega) hs2]
      · rw [hok (by omega) (by omega) (by omega) (by omega)]
        dsimp only
        rw [hchc, if_neg hc1, if_neg hc2]

theorem fixLen_length (u : Nat) (l : List Char) : (fixLen u l).length = u := by
  simp only [fixLen, List.length_append, List.length_take, List.length_replicate]
  omega

/-- A field hypothesis instance for a 64-bit unsigned field. -/
theorem u64F_field_ok {f : List Char}
    (hf : f ≠ [] ∧ (∀ ch ∈ f, isDigitC ch = true) ∧ (decDigits f : Int) ≤ IMAX) :
    f ≠ [] ∧ (∀ ch ∈ f, isDigitC ch = true) ∧
      u64F.1 ≤ (decDigits f : Int) ∧ (decDigits f : Int) ≤ u64F.2 ∧
      (decDigits f : Int) ≤ IMAX := by
  obtain ⟨a, b, cc⟩ := hf
  exact ⟨a, b, decDigits_nonneg f, le_trans cc (by decide), cc⟩

/-- A field hypothesis instance for the `int` field. -/
theorem i32F_field_ok {f : List Char}
    (hf : f ≠ [] ∧ (∀ ch ∈ f, isDigitC ch = true) ∧ (decDigits f : Int) ≤ IMAX)
    (hw : (decDigits f : Int) ≤ 2 ^ 31 - 1) :
    f ≠ [] ∧ (∀ ch ∈ f, isDigitC ch = true) ∧
      i32F.1 ≤ (decDigits f : Int) ∧ (decDigits f : Int) ≤ i32F.2 ∧
      (decDigits f : Int) ≤ IMAX := by
  obtain ⟨a, b, cc⟩ := hf
  exact ⟨a, b, le_trans (by decide) (decDigits_nonneg f), hw, cc⟩

/-- Claim C2, counterexample.  `parse_message` accepts this input as a
download message although its header line (up to the `'\n'`) holds only ten
fields: `strtoimax` lets the eleventh field skip the terminating newline as
whitespace and take its digits from after it, so an accepted download
header need not be eleven fields terminated by a newline. -/
theorem c2_counterexample :
    parse_message decompNone decAll junk0 1
        ("download 1 0 0 0 0 0 0 0 0 0 \n0 JJJJJJJJJJJJ".toList) ⟨0, 44⟩ =
      .ok (.download ⟨1, 0, 0, 0, 0, 0, 0, 0, []⟩, ⟨32, 1⟩) ∧
    download_header_shape ("download 1 0 0 0 0 0 0 0 0 0 \n0 JJJJJJJJJJJJ".toList) =
      false := by
  exact ⟨by decide, by decide⟩

/-- Claim C2, amended.  For canonical headers -- each field a nonempty run
of decimal digits (value fitting `intmax_t`, and fitting `int` for
`is_body_compressed`), fields separated by single spaces and the last
followed by `'\n'`, with enough view budget -- the download header parses
to exactly its eleven decimal values and the upload header to exactly its
seven decimal values, in the declared order.  (The scanner is laxer than
the claim states on non-canonical inputs: each field may be preceded by
whitespace -- including the intended terminating newline -- or a sign, and
a newline directly after an earlier field ends the header early.) -/
theorem c2_amended_canonical_headers
    (buf rest buf2 rest2 : List Char) (p t p2 t2 : Nat)
    (f1 f2 f3 f4 f5 f6 f7 f8 f9 f10 f11 g1 g2 g3 g4 g5 g6 g7 : List Char)
    (hdropD : buf.drop p =
      encFields [f1, f2, f3, f4, f5, f6, f7, f8, f9, f10, f11] '\n' ++ rest)
    (hfldD : ∀ f ∈ [f1, f2, f3, f4, f5, f6, f7, f8, f9, f10, f11],
      f ≠ [] ∧ (∀ ch ∈ f, isDigitC ch = true) ∧ (decDigits f : Int) ≤ IMAX)
    (h9 : (decDigits f9 : Int) ≤ 2 ^ 31 - 1)
    (htD : needLen [f1, f2, f3, f4, f5, f6, f7, f8, f9, f10, f11] ≤ t)
    (ht64D : t < 2 ^ 64)
    (hdropU : buf2.drop p2 = encFields [g1, g2, g3, g4, g5, g6, g7] '\n' ++ rest2)
    (hfldU : ∀ g ∈ [g1, g2, g3, g4, g5, g6, g7],
      g ≠ [] ∧ (∀ ch ∈ g, isDigitC ch = true) ∧ (decDigits g : Int) ≤ IMAX)
    (hg2 : (decDigits g2 : Int) ≤ 2 ^ 31 - 1)
    (htU : needLen [g1, g2, g3, g4, g5, g6, g7] ≤ t2)
    (ht64U : t2 < 2 ^ 64) :
    parse_header_element_ints buf '\n' ⟨p, t⟩ dlHeadW =
      .ok ([(decDigits f1 : Int), decDigits f2, decDigits f3, decDigits f4,
            decDigits f5, decDigits f6, decDigits f7, decDigits f8, decDigits f9,
            decDigits f10, decDigits f11],
        ⟨p + encLen [f1, f2, f3, f4, f5, f6, f7, f8, f9, f10, f11],
         t - needLen [f1, f2, f3, f4, f5, f6, f7, f8, f9, f10, f11]⟩) ∧
    parse_header_element_ints buf2 '\n' ⟨p2, t2⟩ ulHeadW =
      .ok ([(decDigits g1 : Int), decDigits g2, decDigits g3, decDigits g4,
            decDigits g5, decDigits g6, decDigits g7],
        ⟨p2 + encLen [g1, g2, g3, g4, g5, g6, g7],
         t2 - needLen [g1, g2, g3, g4, g5, g6, g7]⟩) := by
  constructor
  · have hD := fields_canonical buf rest '\n' (by decide)
      [(f2, u64F), (f3, u64F), (f4, u64F), (f5, u64F), (f6, u64F), (f7, u64F),
       (f8, u64F), (f9, i32F), (f10, u64F), (f11, u64F)] (f1, u64F) p t
      (by simpa using hdropD)
      (by
        intro y hy
        simp only [List.mem_cons, List.not_mem_nil, or_false] at hy
        rcases hy with rfl | rfl | rfl | rfl | rfl | rfl | rfl | rfl | rfl | rfl | rfl
        · exact u64F_field_ok (hfldD f1 (by simp))
        · exact u64F_field_ok (hfldD f2 (by simp))
        · exact u64F_field_ok (hfldD f3 (by simp))
        · exact u64F_field_ok (hfldD f4 (by simp))
        · exact u64F_field_ok (hfldD f5 (by simp))
        · exact u64F_field_ok (hfldD f6 (by simp))
        · exact u64F_field_ok (hfldD f7 (by simp))
        · exact u64F_field_ok (hfldD f8 (by simp))
        · exact i32F_field_ok (hfldD f9 (by simp)) h9
        · exact u64F_field_ok (hfldD f10 (by simp))
        · exact u64F_field_ok (hfldD f11 (by simp)))
      (by simpa using htD) ht64D
    simpa [dlHeadW] using hD
  · have hU := fields_canonical buf2 rest2 '\n' (by decide)
      [(g2, i32F), (g3, u64F), (g4, u64F), (g5, u64F), (g6, u64F), (g7, u64F)]
      (g1, u64F) p2 t2
      (by simpa using hdropU)
      (by
        intro y hy
        simp only [List.mem_cons, List.not_mem_nil, or_false] at hy
        rcases hy with rfl | rfl | rfl | rfl | rfl | rfl | rfl
        · exact u64F_field_ok (hfldU g1 (by simp))
        · exact i32F_field_ok (hfldU g2 (by simp)) hg2
        · exact u64F_field_ok (hfldU g3 (by simp))
        · exact u64F_field_ok (hfldU g4 (by simp))
        · exact u64F_field_ok (hfldU g5 (by simp))
        · exact u64F_field_ok (hfldU g6 (by simp))
        · exact u64F_field_ok (hfldU g7 (by simp)))
      (by simpa using htU) ht64U
    simpa [ulHeadW] using hU

theorem c2_amended_witness :
    parse_header_element_ints ("3 5 2 7 11 4 1 9 0 6 8\nxxxxxxxxxxxxxxxx".toList)
        '\n' ⟨0, 40⟩ dlHeadW =
      .ok ([3, 5, 2, 7, 11, 4, 1, 9, 0, 6, 8], ⟨23, 6⟩) ∧
    parse_header_element_ints ("12 1 0 0 10 4 4\nyyyyyyyy".toList)
        '\n' ⟨0, 24⟩ ulHeadW =
      .ok ([12, 1, 0, 0, 10, 4, 4], ⟨16, 1⟩) := by
  have h := c2_amended_canonical_headers
    ("3 5 2 7 11 4 1 9 0 6 8\nxxxxxxxxxxxxxxxx".toList) ("xxxxxxxxxxxxxxxx".toList)
    ("12 1 0 0 10 4 4\nyyyyyyyy".toList) ("yyyyyyyy".toList) 0 40 0 24
    ['3'] ['5'] ['2'] ['7'] ['1', '1'] ['4'] ['1'] ['9'] ['0'] ['6'] ['8']
    ['1', '2'] ['1'] ['0'] ['0'] ['1', '0'] ['4'] ['4']
    (by decide) (by decide) (by decide) (by decide) (by decide)
    (by decide) (by decide) (by decide) (by decide) (by decide)
  constructor
  · rw [h.1]
    decide
  · rw [h.2]
    decide

/-- Claim C5, counterexample.  On the field text `"-1\nXY"` (a signed value
before the `'\n'` end delimiter) the code's scanner succeeds with value
`-1`, whereas the scanner the claim describes -- longest leading base-10
run, terminated by the expected delimiter -- fails (the leading run is
empty and `'-'` is not a delimiter). -/
theorem c5_counterexample :
    parse_header_element_ints ("-1\nXY".toList) '\n' ⟨0, 5⟩ [i32F] =
      .ok ([-1], ⟨3, 1⟩) ∧
    claim_scan_int ("-1\nXY".toList) i32F.1 i32F.2 [' ', '\n'] ⟨0, 5⟩ = none :=
  ⟨by decide, by decide⟩

theorem c5_amended_witness :
    parse_header_value_int (" -42 Z".toList) i32F.1 i32F.2 ⟨0, 6⟩ =
      .ok (-42, ⟨4, 1⟩) := by
  have h := (@c5_scanner_amended (" -42 Z".toList) [' '] ['-'] ['4', '2'] ['Z'] ' '
    i32F.1 i32F.2 '\n' 0 6 (-42) (by decide) (by decide) (by decide) (by decide)
    (by decide) (by decide) (by decide)).1 (by decide) (by decide) (by decide) (by decide)
  rw [h]
  decide

/-- Claim C3.  `MessageBody::parse` fails exactly when the available bytes
(the view's size) are fewer than the declared size -- `compressed_body_size`
when compressed, `uncompressed_body_size` otherwise -- or, in the compressed
case, when the decompressor rejects the declared `compressed_body_size`-byte
prefix.  On success, uncompressed: the body view is the first
`uncompressed_body_size` bytes of the input view (no allocation) and the
remaining view starts that many bytes in; compressed: the body view is an
owned buffer of exactly `uncompressed_body_size` bytes and the remaining
view starts `compressed_body_size` bytes in. -/
theorem c3_message_body_framing (decomp : List Char → Nat → Option (List Char))
    (buf : List Char) (sv : SV) (csize usize : Nat) (isComp : Bool) :
    (MessageBody.parse decomp buf sv csize usize isComp = none ↔
      (if isComp then
        sv.size < csize ∨ decomp ((buf.drop sv.pos).take csize) usize = none
      else sv.size < usize)) ∧
    (∀ mb, MessageBody.parse decomp buf sv csize usize isComp = some mb →
      (isComp = false → mb.body = .inBuf ⟨sv.pos, usize⟩ ∧
        mb.remaining = ⟨sv.pos + usize, sv.size - usize⟩) ∧
      (isComp = true → ∃ out,
        decomp ((buf.drop sv.pos).take csize) usize = some out ∧
        mb.body = .owned (fixLen usize out) ∧ (fixLen usize out).length = usize ∧
        mb.remaining = ⟨sv.pos + csize, sv.size - csize⟩)) := by
  cases isComp
  · by_cases hu : sv.size < usize
    · refine ⟨by simp [MessageBody.parse, hu], ?_⟩
      intro mb hmb
      simp [MessageBody.parse, hu] at hmb
    · refine ⟨by simp [MessageBody.parse, hu], ?_⟩
      intro mb hmb
      simp only [MessageBody.parse, Bool.false_eq_true, if_false, if_neg hu,
        Option.some.injEq] at hmb
      subst hmb
      exact ⟨fun _ => ⟨rfl, rfl⟩, fun hff => by cases hff⟩
  · by_cases hcs : sv.size < csize
    · refine ⟨by simp [MessageBody.parse, hcs], ?_⟩
      intro mb hmb
      simp [MessageBody.parse, hcs] at hmb
    · cases hdec : decomp ((buf.drop sv.pos).take csize) usize with
      | none =>
        refine ⟨by simp [MessageBody.parse, hcs, hdec], ?_⟩
        intro mb hmb
        simp [MessageBody.parse, hcs, hdec] at hmb
      | some out =>
        refine ⟨by simp [MessageBody.parse, hcs, hdec], ?_⟩
        intro mb hmb
        simp only [MessageBody.parse, if_true, if_neg hcs, hdec,
          Option.some.injEq] at hmb
        subst hmb
        constructor
        · intro hff
          cases hff
        · intro hxx
          exact ⟨out, rfl, rfl, fixLen_length usize out, rfl⟩

theorem c3_message_body_framing_witness :
    MessageBody.parse decompNone ("hdrBODYrest".toList) ⟨3, 8⟩ 0 4 false =
      some ⟨.inBuf ⟨3, 4⟩, ⟨7, 4⟩⟩ ∧
    (MessageBody.parse decompNone ("hdrBODYrest".toList) ⟨3, 8⟩ 2 4 true = none ↔
      ((8 : Nat) < 2 ∨ decompNone ((("hdrBODYrest".toList).drop 3).take 2) 4 = none)) := by
  constructor
  · have h := ((c3_message_body_framing decompNone ("hdrBODYrest".toList) ⟨3, 8⟩
      0 4 false).2 ⟨.inBuf ⟨3, 4⟩, ⟨7, 4⟩⟩ (by decide)).1 rfl
    decide
  · exact (c3_message_body_framing decompNone ("hdrBODYrest".toList) ⟨3, 8⟩ 2 4 true).1

/-- Claim C4.  The download body loop: (empty) an empty body view yields the
empty changeset list; (oversize) when the six-field space-terminated
sub-header parses but the declared `changeset_size` exceeds the bytes
remaining in the body view, the parse fails; (step) otherwise the next
`changeset_size` bytes after the sub-header become the changeset's payload,
the changeset -- fields in the order `remote_version`,
`last_integrated_local_version`, `origin_timestamp`, `origin_file_ident`,
`original_changeset_size`, `changeset_size` -- is appended in front of
whatever the loop produces on the advanced view. -/
theorem c4_download_body_loop (dec : List Char → Option Unit) (junk : Nat → Int)
    (bbuf : List Char) (fuel : Nat) (bv : SV) :
    (bv.size = 0 → download_body_loop dec junk bbuf (fuel + 1) bv = .ok []) ∧
    (∀ vs bv1, bv.size ≠ 0 →
      parse_header_element_ints bbuf ' ' bv dlSubW = .ok (vs, bv1) →
      ((bv1.size < natSize (vs.getD 5 (junk 5)) →
        download_body_loop dec junk bbuf (fuel + 1) bv = .fail) ∧
       (natSize (vs.getD 5 (junk 5)) ≤ bv1.size →
        dec ((bbuf.drop bv1.pos).take (natSize (vs.getD 5 (junk 5)))) = some () →
        ∀ r, download_body_loop dec junk bbuf fuel
            ⟨bv1.pos + natSize (vs.getD 5 (junk 5)),
              bv1.size - natSize (vs.getD 5 (junk 5))⟩ = .ok r →
          download_body_loop dec junk bbuf (fuel + 1) bv =
            .ok (⟨vs.getD 0 (junk 0), vs.getD 1 (junk 1), vs.getD 2 (junk 2),
              vs.getD 3 (junk 3), vs.getD 4 (junk 4),
              (bbuf.drop bv1.pos).take (natSize (vs.getD 5 (junk 5)))⟩ :: r)))) := by
  constructor
  · intro h0
    simp only [download_body_loop]
    rw [if_pos h0]
  · intro vs bv1 hne hsub
    constructor
    · intro hover
      simp only [download_body_loop]
      rw [if_neg hne, hsub]
      dsimp only
      rw [if_pos hover]
    · intro hle hdec r hrec
      simp only [download_body_loop]
      rw [if_neg hne, hsub]
      dsimp only
      rw [if_neg (not_lt.mpr hle), hdec, hrec]

theorem c4_download_body_loop_witness :
    download_body_loop decAll junk0 ("1 2 3 4 5 2 QQjjjjjj".toList) 2 ⟨0, 20⟩ =
      .ok [⟨1, 2, 3, 4, 5, ['Q', 'Q']⟩] := by
  have h := ((c4_download_body_loop decAll junk0 ("1 2 3 4 5 2 QQjjjjjj".toList)
      1 ⟨0, 20⟩).2 [1, 2, 3, 4, 5, 2] ⟨12, 2⟩ (by decide) (by decide)).2
    (by decide) (by decide) [] (by decide)
  rw [h]
  decide

/-- Claim C6.  Whenever `parse_message` returns failure on the current
(non-empty) view, the driver logs exactly
`"could not find message in input file"`, exits with failure, and performs
no database action for that or any subsequent input. -/
theorem c6_parse_failure_halts_driver
    (decomp : List Char → Nat → Option (List Char)) (dec : List Char → Option Unit)
    (junk : Nat → Int) (bodyFuel fuel : Nat) (buf : List Char) (v : SV)
    (hne : v.size ≠ 0)
    (hfail : parse_message decomp dec junk bodyFuel buf v = .fail) :
    driver_loop decomp dec junk bodyFuel buf (fuel + 1) v =
      ([], .parseFailure ("could not find message in input file".toList)) := by
  simp only [driver_loop]
  rw [if_neg hne, hfail]

theorem c6_parse_failure_halts_driver_witness :
    driver_loop decompNone decAll junk0 1 ("xyz 1\n".toList) 1 ⟨0, 6⟩ =
      ([], .parseFailure ("could not find message in input file".toList)) :=
  c6_parse_failure_halts_driver decompNone decAll junk0 1 0 ("xyz 1\n".toList)
    ⟨0, 6⟩ (by decide) (by decide)

/-- Claim C1, refuted on the code.  `"ident 42 7 13\nXYZ"` is a valid
stream in the claim's sense: `parse_message` accepts it and the remainder
is empty, and the driver consumes it and exits successfully -- yet the
trailing bytes `"XYZ"` were never part of any message (the remaining-view
computation of `parse_header_value` drops one byte per numeric field).
The parsed message sequence re-encodes to `"ident 42 7 13\n"`, not to the
input; moreover `"ident 42 7 13\nABC"` is a second, different valid stream
with the same message sequence, so no encoder of the messages can
reproduce both streams byte-for-byte. -/
theorem c1_round_trip_violated :
    parse_message decompNone decAll junk0 1 ("ident 42 7 13\nXYZ".toList) ⟨0, 17⟩ =
      .ok (.ident ⟨42, 7, 13⟩, ⟨14, 0⟩) ∧
    parse_message decompNone decAll junk0 1 ("ident 42 7 13\nABC".toList) ⟨0, 17⟩ =
      .ok (.ident ⟨42, 7, 13⟩, ⟨14, 0⟩) ∧
    driver_run decompNone decAll junk0 1 2 ("ident 42 7 13\nXYZ".toList) =
      ([.set_client_file_ident 7 13], .exitSuccess) ∧
    encode_ident ⟨42, 7, 13⟩ ≠ "ident 42 7 13\nXYZ".toList ∧
    "ident 42 7 13\nXYZ".toList ≠ "ident 42 7 13\nABC".toList :=
  ⟨by decide, by decide, by decide, by decide, by decide⟩

/-- Claim C7, refuted on the code.  `"ident 42 7 13\n"` parses to the
expected message and the driver records the client file identity `(7, 13)`,
but the returned remainder is not empty: its size is `2^64 - 3` (the
remaining-view computation wraps), so the driver attempts to parse another
message from past the end of the input and exits with failure instead
of 0. -/
theorem c7_ident_scenario_code_bug :
    parse_message decompNone decAll junk0 1 ("ident 42 7 13\n".toList) ⟨0, 14⟩ =
      .ok (.ident ⟨42, 7, 13⟩, ⟨14, 18446744073709551613⟩) ∧
    driver_run decompNone decAll junk0 1 2 ("ident 42 7 13\n".toList) =
      ([.set_client_file_ident 7 13],
        .parseFailure ("could not find message in input file".toList)) :=
  ⟨by decide, by decide⟩

/-- Claim C8, refuted on the code.  `"download 1 0 0 0 0 0 0 0 0 0 0\n"`
parses to a download message with session 1, all-zero header values and an
empty changeset list, and the driver calls `integrate_server_changesets`
with zero changesets -- but the returned remainder has size `2^64 - 11`
instead of 0, so the driver attempts another parse and exits with failure
instead of 0. -/
theorem c8_empty_download_scenario_code_bug :
    parse_message decompNone decAll junk0 1
        ("download 1 0 0 0 0 0 0 0 0 0 0\n".toList) ⟨0, 31⟩ =
      .ok (.download ⟨1, 0, 0, 0, 0, 0, 0, 0, []⟩, ⟨31, 18446744073709551605⟩) ∧
    driver_run decompNone decAll junk0 1 2 ("download 1 0 0 0 0 0 0 0 0 0 0\n".toList) =
      ([.integrate_server_changesets 0 0 0 0 0 []],
        .parseFailure ("could not find message in input file".toList)) :=
  ⟨by decide, by decide⟩

/-- Claim C10, refuted on the code.  On the accepted 14-byte input
`"ident 42 7 13\n"` the remainder `parse_message` returns has 64-bit size
`2^64 - 3`: not a strictly shorter suffix of the input view, so the claimed
termination measure of the driver loop does not exist. -/
theorem c10_remainder_not_shorter :
    parse_message decompNone decAll junk0 1 ("ident 42 7 13\n".toList) ⟨0, 14⟩ =
      .ok (.ident ⟨42, 7, 13⟩, ⟨14, 18446744073709551613⟩) ∧
    (14 : Nat) < 18446744073709551613 :=
  ⟨by decide, by decide⟩

/-- Claim C9, refuted on the code.  Invoking the tool with `-v` does not
print the release identifier: `main` registers no `version` flag (though
its usage text documents one), so `-v` is unmatched, the required `--realm`
is missing, and the tool prints an error plus the usage text and exits with
failure.  No code path of `main` ever emits a release identifier. -/
theorem c9_no_release_identifier :
    cli_main decompNone decAll junk0 1 1 [("-v".toList)] [] =
      ([.err_log ("missing path to realm to apply changesets to".toList),
        .print_usage], false) ∧
    ∀ (decomp : List Char → Nat → Option (List Char)) (dec : List Char → Option Unit)
      (junk : Nat → Int) (bodyFuel fuel : Nat) (argv : List (List Char))
      (input : List Char),
      MainEffect.print_release_identifier ∉ (cli_main decomp dec junk bodyFuel fuel argv input).1 := by
  refine ⟨by decide, ?_⟩
  intro decomp dec junk bodyFuel fuel argv input
  simp only [cli_main]
  split_ifs <;> simp
